import Mathlib

/-!
Verification development for the powerdxx CPU frequency daemon.

A shallow embedding of the control core of src/powerd++.cpp together
with the cyclic timer of src/Cycle.hpp.  Machine integers are modelled
as Nat with explicit reduction modulo two to the width where the C code
can wrap: cptime_t and uint64_t are 64 bits wide, mhz_t (unsigned int)
is 32 bits wide.  Kernel reads (sysctl) are passed in as oracle
functions, kernel writes are returned as action lists.
-/

namespace Powerdxx

/-- Modulus of the 64 bit unsigned types cptime_t and uint64_t. -/
def W64 : Nat := 2 ^ 64

/-- Modulus of the 32 bit unsigned type mhz_t. -/
def W32 : Nat := 2 ^ 32

/-- Wrapping 64 bit addition. -/
def wadd (a b : Nat) : Nat := (a + b) % W64

/-- Wrapping 64 bit subtraction, a - b as computed on uint64_t values. -/
def wsub (a b : Nat) : Nat := (a % W64 + (W64 - b % W64)) % W64

/-- Number of tick states per core (CPUSTATES: user, nice, sys, intr, idle). -/
def CPUSTATES : Nat := 5

/-- Index of the idle state inside a cp_times row (CP_IDLE). -/
def CP_IDLE : Fin 5 := ⟨4, by decide⟩

/-- Management information for a single CPU core (struct Core of
powerd++.cpp).  The controller field holds the index of the core that
controls the clock of this core; indices are modelled as Nat, the
pre-initialisation value -1 is never observed by the claims, which all
act on initialised states. -/
structure Core where
  controller : Nat
  load : Nat
  min : Nat
  max : Nat

/-- The global mutable state of powerd++.cpp (the anonymous struct g)
restricted to the fields the cycle step touches.  cpTimes is the ring
buffer of samples * ncpu rows of CPUSTATES tick counters; targets and
target_freqs are indexed by the three AC line states. -/
structure GState where
  samples : Nat
  sample : Nat
  ncpu : Nat
  cpTimes : Nat → Fin 5 → Nat
  cores : Nat → Core
  targets : Fin 3 → Nat
  target_freqs : Fin 3 → Nat
  target : Nat
  target_freq : Nat
  acline : Fin 3

/-- Sum of the five tick counters of the new row minus those of the old
row, computed with wrapping uint64_t arithmetic exactly like the two
accumulation loops of update_cp_times. -/
def allDelta (newRow oldRow : Fin 5 → Nat) : Nat :=
  (List.ofFn oldRow).foldl (fun a t => wsub a t)
    ((List.ofFn newRow).foldl (fun a t => wadd a t) 0)

/-- Idle tick delta, cp_times[CP_IDLE] - cp_times_old[CP_IDLE] on cptime_t. -/
def idleDelta (newRow oldRow : Fin 5 → Nat) : Nat :=
  wsub (newRow CP_IDLE) (oldRow CP_IDLE)

/-- Per-core load of update_cp_times:
all ? 1024 - cptime_t((uint64_t\x7bidle\x7d << 10) / all) : 0.
The shift by 10 is multiplication by 1024 mod 2^64, the outer
subtraction is again wrapping. -/
def coreLoad (idle all : Nat) : Nat :=
  if all = 0 then 0 else wsub 1024 ((idle * 1024 % W64) / all)

/-- Embedding of update_cp_times.  kern is the row of fresh kernel tick
counters per core delivered by the sysctl_get of kern.cp_times; the
call writes rows sample*ncpu .. sample*ncpu+ncpu-1 of the ring buffer,
recomputes every core load from the delta between the fresh row and
the oldest row, and advances the shared sample index modulo samples. -/
def update_cp_times (g : GState) (kern : Nat → Fin 5 → Nat) : GState :=
  let cpT : Nat → Fin 5 → Nat := fun i s =>
    if g.sample * g.ncpu ≤ i ∧ i < g.sample * g.ncpu + g.ncpu then
      kern (i - g.sample * g.ncpu) s
    else g.cpTimes i s
  let cores' : Nat → Core := fun c =>
    if c < g.ncpu then
      let newRow := cpT (g.sample * g.ncpu + c)
      let oldRow := cpT ((g.sample + 1) % g.samples * g.ncpu + c)
      { g.cores c with load := coreLoad (idleDelta newRow oldRow) (allDelta newRow oldRow) }
    else g.cores c
  { g with cpTimes := cpT, cores := cores', sample := (g.sample + 1) % g.samples }

/-- One iteration of the combination loop of update_load_times: if the
core at index corei does not control its own clock, raise the load of
its controller to the maximum of both loads. -/
def loadMaxStep (cs : Nat → Core) (corei : Nat) : Nat → Core :=
  let core := cs corei
  if core.controller = corei then cs
  else fun c =>
    if c = core.controller then
      { cs core.controller with load := max (cs core.controller).load core.load }
    else cs c

/-- Embedding of update_load_times: refresh the tick samples, then fold
the combination loop over all core indices in order. -/
def update_load_times (g : GState) (kern : Nat → Fin 5 → Nat) : GState :=
  let g1 := update_cp_times g kern
  { g1 with cores := (List.range g1.ncpu).foldl loadMaxStep g1.cores }

/-- Embedding of update_acline: read the AC line state (none models a
failing sysctl read, mapped to UNKNOWN = 2) and load the matching
target load and target frequency. -/
def update_acline (g : GState) (reading : Option (Fin 3)) : GState :=
  let acl := reading.getD ⟨2, by decide⟩
  { g with acline := acl, target := g.targets acl, target_freq := g.target_freqs acl }

/-- Wanted frequency of update_freq: oldfreq * core.load / g.target on
unsigned long, truncated to mhz_t by the assignment, in adaptive mode
(target nonzero); the fixed target frequency otherwise. -/
def wantfreqOf (target target_freq oldfreq load : Nat) : Nat :=
  if target ≠ 0 then oldfreq * load / target % W32 else target_freq

/-- Applied frequency of update_freq:
std::min(std::max(wantfreq, core.min), core.max). -/
def newfreqOf (want mn mx : Nat) : Nat := min (max want mn) mx

/-- Decision taken by update_freq for one clock controlling core: the
clock read back (oldfreq), the computed wanted frequency, the clamped
frequency, and whether a sysctl write is issued (only on change). -/
structure FreqAction where
  corei : Nat
  oldfreq : Nat
  wantfreq : Nat
  newfreq : Nat
  write : Bool
deriving DecidableEq

/-- Embedding of update_freq: run update_load_times and update_acline,
then for every clock controlling core read the clock through the
freqOf oracle and compute its decision. -/
def update_freq (g : GState) (kern : Nat → Fin 5 → Nat)
    (reading : Option (Fin 3)) (freqOf : Nat → Nat) : GState × List FreqAction :=
  let g1 := update_acline (update_load_times g kern) reading
  (g1, (List.range g1.ncpu).filterMap (fun corei =>
    let core := g1.cores corei
    if core.controller = corei then
      let oldfreq := freqOf corei
      let want := wantfreqOf g1.target g1.target_freq oldfreq core.load
      let nf := newfreqOf want core.min core.max
      some { corei := corei, oldfreq := oldfreq, wantfreq := want,
             newfreq := nf, write := oldfreq ≠ nf }
    else none))

/-- Cyclic sleep functor of src/Cycle.hpp (timing::Cycle).  The stored
steady clock time point clk is modelled in microseconds as an Int. -/
structure Cycle where
  clk : Int

/-- Zero-argument call operator of timing::Cycle, a const member: it
computes the remaining time against the stored time point and sleeps
it off when positive.  now is the steady clock reading, interrupted
tells whether the usleep call was cut short by a signal.  The returned
state is the unmodified receiver, mirroring constness. -/
def Cycle.resume (c : Cycle) (now : Int) (interrupted : Bool) : Bool × Cycle :=
  let remaining : Int := c.clk - now
  (decide (remaining ≤ 0) || !interrupted, c)

/-- Cycle-time-taking call operator of timing::Cycle: advance the
stored time point by the cycle time, then behave like the
zero-argument operator. -/
def Cycle.cycle (c : Cycle) (cycleTime now : Int) (interrupted : Bool) : Bool × Cycle :=
  let c' : Cycle := ⟨c.clk + cycleTime⟩
  c'.resume now interrupted

/-- Exit codes of powerd++.cpp (enum class Exit), in declaration order. -/
inductive Exit where
  | ok | eclarg | eoutofrange | eload | efreq | emode | eival
  | esamples | esysctl | enofreq | econflict | epid | eforbidden | edaemon
deriving DecidableEq

/-- Outcome of the pidfile_open call inside the Pidfile constructor:
success, failure with EEXIST (another instance holds the lock and its
pid was stored in otherpid), or failure with some other errno. -/
inductive PidOpen where
  | ok
  | eexist (otherpid : Nat)
  | err (e : Nat)
deriving DecidableEq

/-- Outcomes of the fallible system calls along run_daemon, collapsing
each call to whether it succeeds. -/
structure DaemonEnv where
  pidOpen : PidOpen
  fgCtorOk : Bool
  daemonOk : Bool
  pidWriteOk : Bool
  loopOk : Bool

/-- Externally visible events of run_daemon: frequency writes through
sysctl_set and the pidfile_remove call of the Pidfile destructor. -/
inductive Ev where
  | freqWrite (corei val : Nat)
  | pidRemove
deriving DecidableEq

/-- Payload of the Exception thrown by fail(): the exit code and the
other-instance pid when the message carries one. -/
structure ExcInfo where
  exitcode : Exit
  reportedPid : Option Nat
deriving DecidableEq

/-- Writes of the FreqGuard constructor: for every clock controlling
core it reads the current (pre-daemon) frequency and writes it back. -/
def fgCtorWrites (g : GState) (freqOf : Nat → Nat) : List Ev :=
  (List.range g.ncpu).filterMap (fun i =>
    if (g.cores i).controller = i then some (.freqWrite i (freqOf i)) else none)

/-- Writes of the FreqGuard destructor: for every clock controlling
core it writes core.max, swallowing any exception per core. -/
def fgDtorWrites (g : GState) : List Ev :=
  (List.range g.ncpu).filterMap (fun i =>
    if (g.cores i).controller = i then some (.freqWrite i ((g.cores i).max)) else none)

/-- Embedding of run_daemon as a path function over the outcomes of its
fallible calls.  Each branch returns the Exception (or success) of
that control path together with the trace of external events produced
on it, destructor effects included: the Pidfile destructor always runs
and calls pidfile_remove, the FreqGuard destructor runs on every path
after its constructor completed. -/
def run_daemon (g : GState) (env : DaemonEnv) (freqOf : Nat → Nat) :
    Except ExcInfo Unit × List Ev :=
  match env.pidOpen with
  | .eexist p => (.error ⟨.econflict, some p⟩, [.pidRemove])
  | .err _ => (.error ⟨.epid, none⟩, [.pidRemove])
  | .ok =>
    if !env.fgCtorOk then
      (.error ⟨.esysctl, none⟩, [.pidRemove])
    else
      let ctor := fgCtorWrites g freqOf
      let dtor := fgDtorWrites g
      if !env.daemonOk then
        (.error ⟨.edaemon, none⟩, ctor ++ dtor ++ [.pidRemove])
      else if !env.pidWriteOk then
        (.error ⟨.epid, none⟩, ctor ++ dtor ++ [.pidRemove])
      else if !env.loopOk then
        (.error ⟨.eforbidden, none⟩, ctor ++ dtor ++ [.pidRemove])
      else
        (.ok (), ctor ++ dtor ++ [.pidRemove])

/-- Division that surfaces the division-by-zero error branch
explicitly instead of the total Nat division. -/
def checkedDiv (a b : Nat) : Option Nat :=
  if b = 0 then none else some (a / b)

/-- coreLoad with its single division routed through checkedDiv,
keeping the guard structure of the source expression
all ? ... / all : 0. -/
def coreLoadChecked (idle all : Nat) : Option Nat :=
  if all = 0 then some 0
  else (checkedDiv (idle * 1024 % W64) all).map (fun q => wsub 1024 q)

/-- wantfreqOf with its single division routed through checkedDiv,
keeping the guard structure of the source: the division by g.target
sits in the branch taken only when g.target is nonzero. -/
def wantfreqChecked (target target_freq oldfreq load : Nat) : Option Nat :=
  if target ≠ 0 then (checkedDiv (oldfreq * load) target).map (fun q => q % W32)
  else some target_freq

/-- Formula of the specification for the per-core load of the sampling
step, written from the words of the spec for comparison with the
source function coreLoad: load = freq - freq * idle / all, the busy
fraction weighted by the current clock of the group. -/
def specLoadFormula (freq idle all : Nat) : Nat :=
  freq - freq * idle / all

/-- Modelled from the spec: the per-group load ring buffer with its
rolling sum, which the sources under src/ do not contain (the spec
describes the CoreGroup load ring of a later powerd++.cpp).  buf holds
the stored samples, idx the slot the next sample lands in, sum the
maintained rolling sum. -/
structure LoadRing where
  buf : List Nat
  idx : Nat
  sum : Nat

/-- Modelled from the spec: the O(1) incremental ring update, absent
from the sources under src/ — subtract the evicted slot from the
rolling sum, write the new value, add it to the rolling sum, and
advance the index modulo the sample count. -/
def ringUpdate (r : LoadRing) (x : Nat) : LoadRing :=
  { buf := r.buf.set r.idx x
    idx := (r.idx + 1) % r.buf.length
    sum := r.sum - r.buf.getD r.idx 0 + x }

/-- Modelled from the spec: the temperature throttling overlay of the
frequency policy engine, absent from the sources under src/.  Given a
load-derived frequency, a temperature at or above critical forces the
floor minf; between high and critical the ceiling interpolates
linearly from maxf down toward minf and the result is re-floored at
minf; at or below high the load-derived value passes unchanged. -/
def throttle (temp high crit minf maxf loadfreq : Nat) : Nat :=
  if crit ≤ temp then minf
  else if high < temp then
    max (min loadfreq (maxf - (maxf - minf) * (temp - high) / (crit - high))) minf
  else loadfreq

/-- Modelled from the spec: one policy-step frequency computation with
throttling enabled — the effective frequency starts at
clamp(wanted, min, max) (the newfreqOf of the source) and the
temperature overlay is applied on top. -/
def policyFreq (wanted minf maxf temp high crit : Nat) : Nat :=
  throttle temp high crit minf maxf (newfreqOf wanted minf maxf)

/-! Helper lemmas. -/

/-- Wrapping subtraction agrees with truncated subtraction when the
minuend dominates and fits in 64 bits. -/
lemma wsub_of_le (a b : Nat) (hb : b ≤ a) (ha : a < W64) : wsub a b = a - b := by
  unfold wsub
  rw [Nat.mod_eq_of_lt ha, Nat.mod_eq_of_lt (lt_of_le_of_lt hb ha)]
  have h1 : a + (W64 - b) = W64 + (a - b) := by omega
  rw [h1, Nat.add_mod_left]
  exact Nat.mod_eq_of_lt (by omega)

/-- Initial accumulator bounds a running maximum fold from below. -/
lemma le_foldl_max (f : Nat → Nat) (l : List Nat) :
    ∀ a, a ≤ l.foldl (fun a i => max a (f i)) a := by
  induction l with
  | nil => intro a; exact le_refl a
  | cons t rest ih =>
    intro a
    calc a ≤ max a (f t) := le_max_left a (f t)
    _ ≤ rest.foldl (fun a i => max a (f i)) (max a (f t)) := ih (max a (f t))

/-- Every listed value bounds a running maximum fold from below. -/
lemma foldl_max_le_of_mem (f : Nat → Nat) (l : List Nat) (i : Nat) (hi : i ∈ l) :
    ∀ a, f i ≤ l.foldl (fun a i => max a (f i)) a := by
  induction l with
  | nil => cases hi
  | cons t rest ih =>
    intro a
    rw [List.foldl_cons]
    rcases List.mem_cons.1 hi with he | hm
    · subst he
      calc f i ≤ max a (f i) := le_max_right a (f i)
      _ ≤ rest.foldl (fun a j => max a (f j)) (max a (f i)) := le_foldl_max f rest _
    · exact ih hm (max a (f t))

/-- A running maximum fold returns its accumulator or a listed value. -/
lemma foldl_max_eq_acc_or_mem (f : Nat → Nat) (l : List Nat) :
    ∀ a, l.foldl (fun a i => max a (f i)) a = a
      ∨ ∃ i ∈ l, l.foldl (fun a i => max a (f i)) a = f i := by
  induction l with
  | nil => intro a; exact Or.inl rfl
  | cons t rest ih =>
    intro a
    rw [List.foldl_cons]
    rcases ih (max a (f t)) with h | ⟨i, hi, h⟩
    · rcases max_choice a (f t) with hm | hm
      · exact Or.inl (by rw [h, hm])
      · exact Or.inr ⟨t, List.mem_cons_self t rest, by rw [h, hm]⟩
    · exact Or.inr ⟨i, List.mem_cons_of_mem t hi, h⟩

/-- Running maximum folds agree when the folded function agrees on the
list members. -/
lemma foldl_max_ext (f f' : Nat → Nat) (l : List Nat) (h : ∀ i ∈ l, f i = f' i) :
    ∀ a, l.foldl (fun a i => max a (f i)) a = l.foldl (fun a i => max a (f' i)) a := by
  induction l with
  | nil => intro a; rfl
  | cons t rest ih =>
    intro a
    rw [List.foldl_cons, List.foldl_cons,
        h t (List.mem_cons_self t rest)]
    exact ih (fun i hi => h i (List.mem_cons_of_mem t hi)) _

/-- filterMap only looks at the function values on list members. -/
lemma filterMap_ext {α β : Type} (l : List α) (f f' : α → Option β)
    (h : ∀ a ∈ l, f a = f' a) : l.filterMap f = l.filterMap f' := by
  induction l with
  | nil => rfl
  | cons t rest ih =>
    rw [List.filterMap_cons, List.filterMap_cons, h t (List.mem_cons_self t rest)]
    cases f' t with
    | none => exact ih (fun a ha => h a (List.mem_cons_of_mem t ha))
    | some b => rw [ih (fun a ha => h a (List.mem_cons_of_mem t ha))]

/-- Setting a slot changes a Nat list sum by evicting the old value and
adding the new one. -/
lemma sum_set (l : List Nat) (i x : Nat) (h : i < l.length) :
    (l.set i x).sum = l.sum - l.getD i 0 + x := by
  induction l generalizing i with
  | nil => cases h
  | cons t rest ih =>
    cases i with
    | zero => simp [List.sum_cons, Nat.add_comm]
    | succ j =>
      have hj : j < rest.length := by simpa using h
      have hle : rest.getD j 0 ≤ rest.sum := by
        rw [List.getD_eq_getElem rest 0 hj]
        exact List.single_le_sum (fun y _ => Nat.zero_le y) _ (List.getElem_mem hj)
      simp only [List.set_cons_succ, List.sum_cons, List.getD_cons_succ, ih j hj]
      omega

/-- One combination step never changes the controller, min or max
field of any core; only load fields move. -/
lemma loadMaxStep_preserves (cs : Nat → Core) (t c : Nat) :
    ((loadMaxStep cs t) c).controller = (cs c).controller
    ∧ ((loadMaxStep cs t) c).min = (cs c).min
    ∧ ((loadMaxStep cs t) c).max = (cs c).max := by
  unfold loadMaxStep
  by_cases h : (cs t).controller = t
  · rw [if_pos h]; exact ⟨rfl, rfl, rfl⟩
  · rw [if_neg h]
    by_cases hc : c = (cs t).controller
    · subst hc; rw [if_pos rfl]; exact ⟨rfl, rfl, rfl⟩
    · rw [if_neg hc]; exact ⟨rfl, rfl, rfl⟩

/-- A combination step leaves every core other than the controller of
its subject untouched. -/
lemma loadMaxStep_apply_ne (cs : Nat → Core) (t c : Nat)
    (h : (cs t).controller ≠ t) (hc : c ≠ (cs t).controller) :
    loadMaxStep cs t c = cs c := by
  unfold loadMaxStep
  rw [if_neg h, if_neg hc]

/-- A combination step on a non-controlling core raises the load of its
controller to the maximum of both loads. -/
lemma loadMaxStep_apply_ctl (cs : Nat → Core) (t : Nat)
    (h : (cs t).controller ≠ t) :
    loadMaxStep cs t ((cs t).controller) =
    { cs ((cs t).controller) with
      load := max ((cs ((cs t).controller)).load) ((cs t).load) } := by
  unfold loadMaxStep
  rw [if_neg h, if_pos rfl]

/-- A combination step on a core that controls itself is a no-op. -/
lemma loadMaxStep_self (cs : Nat → Core) (t : Nat)
    (h : (cs t).controller = t) : loadMaxStep cs t = cs := by
  unfold loadMaxStep
  rw [if_pos h]

/-- The folded combination loop leaves controller, min and max fields
of every core unchanged. -/
lemma foldl_loadMaxStep_preserves (l : List Nat) :
    ∀ (cs : Nat → Core) (c : Nat),
    ((l.foldl loadMaxStep cs) c).controller = (cs c).controller
    ∧ ((l.foldl loadMaxStep cs) c).min = (cs c).min
    ∧ ((l.foldl loadMaxStep cs) c).max = (cs c).max := by
  induction l with
  | nil => intro cs c; exact ⟨rfl, rfl, rfl⟩
  | cons t rest ih =>
    intro cs c
    rw [List.foldl_cons]
    obtain ⟨h1, h2, h3⟩ := ih (loadMaxStep cs t) c
    obtain ⟨g1, g2, g3⟩ := loadMaxStep_preserves cs t c
    exact ⟨h1.trans g1, h2.trans g2, h3.trans g3⟩

/-- Characterisation of the combination loop of update_load_times:
under the invariant that the controller of every listed core controls
itself, cores that do not control themselves are untouched, and each
self-controlling core ends with its load folded to the maximum over
its own load and the loads of its listed group members. -/
lemma foldl_loadMaxStep_spec (l : List Nat) :
    ∀ (cs : Nat → Core),
    (∀ i ∈ l, (cs ((cs i).controller)).controller = (cs i).controller) →
    (∀ j, (cs j).controller ≠ j → l.foldl loadMaxStep cs j = cs j)
    ∧ (∀ ctl, (cs ctl).controller = ctl →
        ((l.foldl loadMaxStep cs) ctl).load =
        (l.filter (fun i => decide ((cs i).controller = ctl ∧ i ≠ ctl))).foldl
          (fun a i => max a ((cs i).load)) ((cs ctl).load)) := by
  induction l with
  | nil => intro cs _; exact ⟨fun _ _ => rfl, fun _ _ => rfl⟩
  | cons t rest ih =>
    intro cs H
    by_cases hself : (cs t).controller = t
    · have hstep : loadMaxStep cs t = cs := loadMaxStep_self cs t hself
      obtain ⟨ih1, ih2⟩ := ih cs (fun i hi => H i (List.mem_cons_of_mem t hi))
      refine ⟨?_, ?_⟩
      · intro j hj
        rw [List.foldl_cons, hstep]
        exact ih1 j hj
      · intro ctl hctl
        have hpred : ¬ (decide ((cs t).controller = ctl ∧ t ≠ ctl) = true) := by
          by_cases h2 : t = ctl
          · simp [h2]
          · simp [hself, h2]
        rw [List.foldl_cons, hstep, List.filter_cons, if_neg hpred]
        exact ih2 ctl hctl
    · have hidem := H t (List.mem_cons_self t rest)
      have hctrl : ∀ c, ((loadMaxStep cs t) c).controller = (cs c).controller :=
        fun c => (loadMaxStep_preserves cs t c).1
      have hne : ∀ c, c ≠ (cs t).controller → loadMaxStep cs t c = cs c :=
        fun c hc => loadMaxStep_apply_ne cs t c hself hc
      have hc0 : loadMaxStep cs t ((cs t).controller) =
          { cs ((cs t).controller) with
            load := max ((cs ((cs t).controller)).load) ((cs t).load) } :=
        loadMaxStep_apply_ctl cs t hself
      have H' : ∀ i ∈ rest,
          ((loadMaxStep cs t) (((loadMaxStep cs t) i).controller)).controller
          = ((loadMaxStep cs t) i).controller := by
        intro i hi
        rw [hctrl, hctrl]
        exact H i (List.mem_cons_of_mem t hi)
      obtain ⟨ih1, ih2⟩ := ih (loadMaxStep cs t) H'
      refine ⟨?_, ?_⟩
      · intro j hj
        rw [List.foldl_cons, ih1 j (by rw [hctrl]; exact hj)]
        apply hne
        intro he
        exact hj (by rw [he]; exact hidem)
      · intro ctl hctl
        have htne : t ≠ ctl := fun he => hself (by rw [he]; exact hctl)
        rw [List.foldl_cons, ih2 ctl (by rw [hctrl]; exact hctl)]
        have hfilter :
            rest.filter (fun i => decide (((loadMaxStep cs t) i).controller = ctl ∧ i ≠ ctl))
            = rest.filter (fun i => decide ((cs i).controller = ctl ∧ i ≠ ctl)) := by
          apply List.filter_congr
          intro i _
          rw [hctrl]
        have hloads : ∀ i ∈ rest.filter (fun i => decide ((cs i).controller = ctl ∧ i ≠ ctl)),
            ((loadMaxStep cs t) i).load = (cs i).load := by
          intro i hi
          obtain ⟨_, hp⟩ := List.mem_filter.1 hi
          obtain ⟨hic, hine⟩ := of_decide_eq_true hp
          have : i ≠ (cs t).controller := by
            intro he
            exact hine (by rw [← hic, he, hidem])
          rw [hne i this]
        rw [hfilter, foldl_max_ext _ _ _ hloads]
        by_cases hcc : (cs t).controller = ctl
        · have hacc : ((loadMaxStep cs t) ctl).load = max ((cs ctl).load) ((cs t).load) := by
            rw [← hcc, hc0]
          have hpt : decide ((cs t).controller = ctl ∧ t ≠ ctl) = true := by
            simp [hcc, htne]
          rw [hacc, List.filter_cons, if_pos hpt]
          simp only [List.foldl_cons]
        · have hacc : loadMaxStep cs t ctl = cs ctl := hne ctl (fun he => hcc he.symm)
          have hpt : ¬ (decide ((cs t).controller = ctl ∧ t ≠ ctl) = true) := by
            simp [hcc]
          rw [hacc, List.filter_cons, if_neg hpt]

/-- update_cp_times only rewrites load fields: controller, min and max
of every core are preserved. -/
lemma update_cp_times_core_fields (g : GState) (kern : Nat → Fin 5 → Nat) (c : Nat) :
    ((update_cp_times g kern).cores c).controller = (g.cores c).controller
    ∧ ((update_cp_times g kern).cores c).min = (g.cores c).min
    ∧ ((update_cp_times g kern).cores c).max = (g.cores c).max := by
  unfold update_cp_times
  by_cases h : c < g.ncpu <;> simp [h]

/-- update_load_times preserves controller, min and max of every core. -/
lemma update_load_times_core_fields (g : GState) (kern : Nat → Fin 5 → Nat) (c : Nat) :
    ((update_load_times g kern).cores c).controller = (g.cores c).controller
    ∧ ((update_load_times g kern).cores c).min = (g.cores c).min
    ∧ ((update_load_times g kern).cores c).max = (g.cores c).max := by
  obtain ⟨h1, h2, h3⟩ :=
    foldl_loadMaxStep_preserves (List.range g.ncpu) (update_cp_times g kern).cores c
  obtain ⟨g1, g2, g3⟩ := update_cp_times_core_fields g kern c
  exact ⟨h1.trans g1, h2.trans g2, h3.trans g3⟩

/-- The cores of update_load_times are the fold of the combination loop
over the freshly sampled cores. -/
lemma update_load_times_cores (g : GState) (kern : Nat → Fin 5 → Nat) :
    (update_load_times g kern).cores
    = (List.range g.ncpu).foldl loadMaxStep (update_cp_times g kern).cores := rfl

/-- update_freq leaves the action list expressible over the state after
update_load_times and update_acline. -/
lemma update_freq_actions (g : GState) (kern : Nat → Fin 5 → Nat)
    (reading : Option (Fin 3)) (freqOf : Nat → Nat) :
    (update_freq g kern reading freqOf).2
    = (List.range g.ncpu).filterMap (fun corei =>
        let core := (update_load_times g kern).cores corei
        if core.controller = corei then
          let oldfreq := freqOf corei
          let want := wantfreqOf (g.targets (reading.getD 2))
            (g.target_freqs (reading.getD 2)) oldfreq core.load
          let nf := newfreqOf want core.min core.max
          some { corei := corei, oldfreq := oldfreq, wantfreq := want,
                 newfreq := nf, write := oldfreq ≠ nf }
        else none) := rfl

/-! Claim theorems. -/

/-- C1.  For every cycle and every core group, the load recorded on the
controlling core of the group after update_load_times equals the
maximum of the loads of all member cores (those whose controller field
names that core, the controller itself included) as computed by
update_cp_times for the cycle: every member load is bounded by the
group load and the group load is attained by some member — the max,
never a sum or a mean. -/
theorem group_load_is_member_max (g : GState) (kern : Nat → Fin 5 → Nat) (ctl : Nat)
    (H : ∀ i, i < g.ncpu →
      (g.cores ((g.cores i).controller)).controller = (g.cores i).controller)
    (hlt : ctl < g.ncpu) (hctl : (g.cores ctl).controller = ctl) :
    (∀ i, i < g.ncpu → (g.cores i).controller = ctl →
      ((update_cp_times g kern).cores i).load ≤ ((update_load_times g kern).cores ctl).load)
    ∧ (∃ i, i < g.ncpu ∧ (g.cores i).controller = ctl ∧
      ((update_load_times g kern).cores ctl).load = ((update_cp_times g kern).cores i).load) := by
  have hcf : ∀ c, ((update_cp_times g kern).cores c).controller = (g.cores c).controller :=
    fun c => (update_cp_times_core_fields g kern c).1
  have Hcp : ∀ i ∈ List.range g.ncpu,
      ((update_cp_times g kern).cores (((update_cp_times g kern).cores i).controller)).controller
      = ((update_cp_times g kern).cores i).controller := by
    intro i hi
    simp only [hcf]
    exact H i (List.mem_range.1 hi)
  obtain ⟨_, h2⟩ := foldl_loadMaxStep_spec (List.range g.ncpu) (update_cp_times g kern).cores Hcp
  have hload := h2 ctl (by rw [hcf]; exact hctl)
  rw [update_load_times_cores, hload]
  constructor
  · intro i hi hmem
    by_cases hic : i = ctl
    · subst hic
      exact le_foldl_max (fun i => ((update_cp_times g kern).cores i).load) _ _
    · refine foldl_max_le_of_mem (fun i => ((update_cp_times g kern).cores i).load) _ i ?_ _
      apply List.mem_filter.2
      refine ⟨List.mem_range.2 hi, ?_⟩
      simp only [decide_eq_true_eq]
      exact ⟨by rw [hcf]; exact hmem, hic⟩
  · rcases foldl_max_eq_acc_or_mem (fun i => ((update_cp_times g kern).cores i).load)
      ((List.range g.ncpu).filter
        (fun i => decide (((update_cp_times g kern).cores i).controller = ctl ∧ i ≠ ctl)))
      (((update_cp_times g kern).cores ctl).load) with h | ⟨i, hi, h⟩
    · exact ⟨ctl, hlt, hctl, h⟩
    · obtain ⟨hr, hp⟩ := List.mem_filter.1 hi
      obtain ⟨hic, _⟩ := of_decide_eq_true hp
      exact ⟨i, List.mem_range.1 hr, by rw [← hcf]; exact hic, h⟩

/-- Concrete cycle for C1: two cores in one group at controller 0, the
controller fully idle (load 0) and the sibling at fixed-point load 410
(the equivalent of roughly 400 MHz at a clock of 1000 MHz). -/
def c1State : GState where
  samples := 2
  sample := 0
  ncpu := 2
  cpTimes := fun _ _ => 0
  cores := fun _ => { controller := 0, load := 0, min := 100, max := 2000 }
  targets := fun _ => 512
  target_freqs := fun _ => 0
  target := 512
  target_freq := 0
  acline := 2

/-- Kernel tick reading for the concrete C1 cycle: core 0 reports only
idle ticks, core 1 reports 410 busy out of 1024 total ticks. -/
def c1Kern : Nat → Fin 5 → Nat := fun c s =>
  if c = 0 then (if s = CP_IDLE then 4 else 0)
  else (if s = CP_IDLE then 614 else if s = (0 : Fin 5) then 410 else 0)

/-- Witness for C1 at the concrete two-core cycle. -/
theorem group_load_is_member_max_witness :
    ((∀ i, i < c1State.ncpu →
        (c1State.cores ((c1State.cores i).controller)).controller
        = (c1State.cores i).controller)
      ∧ 0 < c1State.ncpu ∧ (c1State.cores 0).controller = 0)
    ∧ ((∀ i, i < c1State.ncpu → (c1State.cores i).controller = 0 →
        ((update_cp_times c1State c1Kern).cores i).load
        ≤ ((update_load_times c1State c1Kern).cores 0).load)
      ∧ (∃ i, i < c1State.ncpu ∧ (c1State.cores i).controller = 0 ∧
        ((update_load_times c1State c1Kern).cores 0).load
        = ((update_cp_times c1State c1Kern).cores i).load)) :=
  ⟨⟨by decide, by decide, by decide⟩,
   group_load_is_member_max c1State c1Kern 0 (by decide) (by decide) (by decide)⟩

/-- C2 (amended).  Under monotone counters (0 ≤ idle ≤ all, all > 0)
with the scaled idle delta below 2^64, the per-core load of
update_cp_times equals 1024 - 1024 * idle / all — the busy fraction as
a clock-independent fixed-point fraction, not an MHz value — and is
bounded by 0 ≤ load ≤ 1024. -/
theorem coreLoad_fixed_point (idle all : Nat)
    (h1 : idle ≤ all) (h2 : 0 < all) (h3 : idle * 1024 < W64) :
    coreLoad idle all = 1024 - idle * 1024 / all ∧ coreLoad idle all ≤ 1024 := by
  have hq : idle * 1024 / all ≤ 1024 := by
    have hmul : idle * 1024 ≤ all * 1024 := Nat.mul_le_mul_right 1024 h1
    calc idle * 1024 / all ≤ all * 1024 / all := Nat.div_le_div_right hmul
    _ = 1024 := by rw [Nat.mul_comm]; exact Nat.mul_div_cancel 1024 h2
  have hmain : coreLoad idle all = 1024 - idle * 1024 / all := by
    unfold coreLoad
    rw [if_neg (Nat.pos_iff_ne_zero.1 h2), Nat.mod_eq_of_lt h3]
    exact wsub_of_le 1024 (idle * 1024 / all) hq (by unfold W64; omega)
  refine ⟨hmain, ?_⟩
  rw [hmain]
  exact Nat.sub_le 1024 _

/-- Witness for the amended C2 at idle 1, all 4: load 768. -/
theorem coreLoad_fixed_point_witness :
    ((1 : Nat) ≤ 4 ∧ (0 : Nat) < 4 ∧ 1 * 1024 < W64)
    ∧ (coreLoad 1 4 = 1024 - 1 * 1024 / 4 ∧ coreLoad 1 4 ≤ 1024) :=
  ⟨⟨by decide, by decide, by decide⟩, coreLoad_fixed_point 1 4 (by decide) (by decide) (by decide)⟩

/-- Concrete cycle for the C2 counterexample: one core, tick deltas
idle 1 and total 4 against an all-zero previous sample, while the
clock of the group stands at 1000 MHz. -/
def c2State : GState where
  samples := 2
  sample := 0
  ncpu := 1
  cpTimes := fun _ _ => 0
  cores := fun _ => { controller := 0, load := 0, min := 100, max := 2000 }
  targets := fun _ => 512
  target_freqs := fun _ => 0
  target := 512
  target_freq := 0
  acline := 2

/-- Kernel tick reading for the C2 counterexample cycle: 3 user ticks
and 1 idle tick. -/
def c2Kern : Nat → Fin 5 → Nat := fun _ s =>
  if s = CP_IDLE then 1 else if s = (0 : Fin 5) then 3 else 0

/-- C2 counterexample.  At the concrete cycle with idle delta 1 and
total delta 4 under a group clock of 1000 MHz, the sampling step of
the code stores the fixed-point load 768, while the formula of the
claim, load = freq - freq * idle / all, yields 750: the computed
per-core load is not the clock-weighted MHz value of the claim. -/
theorem coreLoad_not_clock_weighted_cex :
    ((update_cp_times c2State c2Kern).cores 0).load = 768
    ∧ specLoadFormula 1000 1 4 = 750
    ∧ ((update_cp_times c2State c2Kern).cores 0).load ≠ specLoadFormula 1000 1 4 := by
  refine ⟨by decide, by decide, by decide⟩

/-- C3.  In adaptive mode (nonzero target load), with the clock below
the 2^22 MHz range guarded by the source assert and a fixed-point load
within [0, 1024], the wanted frequency of update_freq equals the load
expressed in MHz (avg, defined exactly by avg * 1024 = oldfreq * load)
times 1024 divided by the target load; at target 512 with a 500 MHz
average load on a 1000 MHz clock the wanted frequency is exactly
1000 MHz, the stable fixed point of the control law. -/
theorem adaptive_wanted_formula (target tf oldfreq load avg : Nat)
    (ht : target ≠ 0) (hof : oldfreq < 2 ^ 22) (hl : load ≤ 1024)
    (havg : avg * 1024 = oldfreq * load) :
    wantfreqOf target tf oldfreq load = avg * 1024 / target
    ∧ wantfreqOf 512 tf 1000 512 = 1000 := by
  constructor
  · unfold wantfreqOf
    rw [if_pos ht, ← havg]
    apply Nat.mod_eq_of_lt
    have hprod : avg * 1024 < 2 ^ 32 := by
      rw [havg]
      have h5 : oldfreq * load ≤ oldfreq * 1024 := Nat.mul_le_mul (le_refl oldfreq) hl
      omega
    unfold W32
    calc avg * 1024 / target ≤ avg * 1024 := Nat.div_le_self _ _
    _ < 2 ^ 32 := hprod
  · unfold wantfreqOf W32
    norm_num

/-- Witness for C3 at target 512, clock 1000 MHz, fixed-point load 512
(an average of 500 MHz). -/
theorem adaptive_wanted_formula_witness :
    ((512 : Nat) ≠ 0 ∧ (1000 : Nat) < 2 ^ 22 ∧ (512 : Nat) ≤ 1024
      ∧ (500 : Nat) * 1024 = 1000 * 512)
    ∧ (wantfreqOf 512 0 1000 512 = 500 * 1024 / 512 ∧ wantfreqOf 512 0 1000 512 = 1000) :=
  ⟨⟨by decide, by decide, by decide, by decide⟩,
   adaptive_wanted_formula 512 0 1000 512 500 (by decide) (by decide) (by decide) (by decide)⟩

/-- C6 (spec-modelled).  With temperature throttling enabled, a group
temperature at or above the critical threshold forces the frequency of
the policy step to the group minimum, regardless of the load-derived
target. -/
theorem throttle_critical_forces_min (wanted minf maxf temp high crit : Nat)
    (h : crit ≤ temp) :
    policyFreq wanted minf maxf temp high crit = minf := by
  unfold policyFreq throttle
  rw [if_pos h]

/-- Witness for C6: temperature 95 at critical threshold 90 forces the
floor 100 whatever the load asked for. -/
theorem throttle_critical_forces_min_witness :
    (90 : Nat) ≤ 95 ∧ policyFreq 1800 100 2000 95 80 90 = 100 :=
  ⟨by decide, throttle_critical_forces_min 1800 100 2000 95 80 90 (by decide)⟩

/-- C8.  The cyclic timer: the cycle-time-taking call advances the
stored absolute deadline by exactly the given interval, the
zero-argument retry leaves the stored deadline untouched, and the
retry waits against exactly that original absolute deadline — its
remaining time is deadline minus now, never recomputed from the
current time. -/
theorem cycle_retry_keeps_deadline (c : Cycle) (dt now₁ now₂ : Int) (i₁ i₂ : Bool) :
    ((c.cycle dt now₁ i₁).2.clk = c.clk + dt)
    ∧ (((c.cycle dt now₁ i₁).2.resume now₂ i₂).2 = (c.cycle dt now₁ i₁).2)
    ∧ (((c.cycle dt now₁ i₁).2.resume now₂ i₂).1
        = (decide (c.clk + dt - now₂ ≤ 0) || !i₂)) :=
  ⟨rfl, rfl, rfl⟩

/-- C9.  A second instance that finds the pidfile lock held fails with
the conflict exit code ECONFLICT and reports the pid of the holding
instance, while a generic pidfile I/O failure exits with the distinct
code EPID and carries no pid. -/
theorem pidfile_conflict_reports_other_pid (g : GState) (env : DaemonEnv)
    (freqOf : Nat → Nat) (p e : Nat) :
    (env.pidOpen = .eexist p →
      (run_daemon g env freqOf).1 = .error ⟨.econflict, some p⟩)
    ∧ (env.pidOpen = .err e → (run_daemon g env freqOf).1 = .error ⟨.epid, none⟩)
    ∧ Exit.econflict ≠ Exit.epid := by
  refine ⟨?_, ?_, by decide⟩
  · intro h
    unfold run_daemon
    rw [h]
  · intro h
    unfold run_daemon
    rw [h]

/-- Demonstration state for the lifecycle witnesses: a single core
controlling itself. -/
def lifecycleState : GState where
  samples := 2
  sample := 0
  ncpu := 1
  cpTimes := fun _ _ => 0
  cores := fun _ => { controller := 0, load := 0, min := 100, max := 2000 }
  targets := fun _ => 512
  target_freqs := fun _ => 0
  target := 512
  target_freq := 0
  acline := 2

/-- Witness for C9: a conflicting open against pid 1234. -/
theorem pidfile_conflict_reports_other_pid_witness :
    (PidOpen.eexist 1234 = PidOpen.eexist 1234)
    ∧ (run_daemon lifecycleState
        { pidOpen := .eexist 1234, fgCtorOk := true, daemonOk := true,
          pidWriteOk := true, loopOk := true } (fun _ => 600)).1
      = .error ⟨.econflict, some 1234⟩ :=
  ⟨rfl, (pidfile_conflict_reports_other_pid lifecycleState
    { pidOpen := .eexist 1234, fgCtorOk := true, daemonOk := true,
      pidWriteOk := true, loopOk := true } (fun _ => 600) 1234 0).1 rfl⟩

/-- C10.  Every division of the per-cycle computation is guarded: the
checked-division variants of the load computation (division by the
tick-delta total, performed only when the total is nonzero, a zero
total yielding load 0) and of the adaptive wanted-frequency
computation (division by the target load, performed only on the branch
where the target is nonzero) never reach the division-by-zero error
branch and agree with the total functions used by the cycle step. -/
theorem cycle_divisions_total (idle all target tf oldf load : Nat) :
    coreLoadChecked idle all = some (coreLoad idle all)
    ∧ wantfreqChecked target tf oldf load = some (wantfreqOf target tf oldf load) := by
  constructor
  · unfold coreLoadChecked coreLoad checkedDiv
    by_cases h : all = 0 <;> simp [h]
  · unfold wantfreqChecked wantfreqOf checkedDiv
    by_cases h : target = 0 <;> simp [h]

/-- Canonical action list of update_freq in fixed mode: every clock
controlling core wants the fixed target frequency, clamped to its
bounds, independent of any load. -/
def fixedActions (n : Nat) (cs : Nat → Core) (tf : Nat) (freqOf : Nat → Nat) :
    List FreqAction :=
  (List.range n).filterMap (fun corei =>
    if (cs corei).controller = corei then
      some { corei := corei, oldfreq := freqOf corei, wantfreq := tf,
             newfreq := newfreqOf tf ((cs corei).min) ((cs corei).max),
             write := freqOf corei ≠ newfreqOf tf ((cs corei).min) ((cs corei).max) }
    else none)

/-- With a zero target load for the active AC line state, update_freq
produces exactly the canonical fixed-mode action list. -/
lemma update_freq_fixed (g : GState) (kern : Nat → Fin 5 → Nat)
    (reading : Option (Fin 3)) (freqOf : Nat → Nat) (tf : Nat)
    (ht : g.targets (reading.getD 2) = 0)
    (hf : g.target_freqs (reading.getD 2) = tf) :
    (update_freq g kern reading freqOf).2 = fixedActions g.ncpu g.cores tf freqOf := by
  rw [update_freq_actions]
  apply filterMap_ext
  intro i _
  obtain ⟨p1, p2, p3⟩ := update_load_times_core_fields g kern i
  simp only [p1, p2, p3, ht, hf, wantfreqOf]
  simp

/-- C4.  Fixed mode is load-independent: for any two states and any two
tick histories that agree on the configuration (core count, group
structure, frequency bounds) and both select target load 0 with target
frequency 800 for the read AC line state, update_freq computes the
same action list in both runs, every wanted frequency is 800, and the
applied frequency is 800 clamped to the bounds of the core — the
sampled loads do not influence the result. -/
theorem fixed_mode_load_independent (g₁ g₂ : GState)
    (kern₁ kern₂ : Nat → Fin 5 → Nat) (reading : Option (Fin 3)) (freqOf : Nat → Nat)
    (hn : g₁.ncpu = g₂.ncpu)
    (hc : ∀ i, (g₁.cores i).controller = (g₂.cores i).controller)
    (hmn : ∀ i, (g₁.cores i).min = (g₂.cores i).min)
    (hmx : ∀ i, (g₁.cores i).max = (g₂.cores i).max)
    (ht₁ : g₁.targets (reading.getD 2) = 0) (ht₂ : g₂.targets (reading.getD 2) = 0)
    (hf₁ : g₁.target_freqs (reading.getD 2) = 800)
    (hf₂ : g₂.target_freqs (reading.getD 2) = 800) :
    (update_freq g₁ kern₁ reading freqOf).2 = (update_freq g₂ kern₂ reading freqOf).2
    ∧ ∀ a ∈ (update_freq g₁ kern₁ reading freqOf).2,
        a.wantfreq = 800
        ∧ a.newfreq = newfreqOf 800 ((g₁.cores a.corei).min) ((g₁.cores a.corei).max) := by
  have e₁ := update_freq_fixed g₁ kern₁ reading freqOf 800 ht₁ hf₁
  have e₂ := update_freq_fixed g₂ kern₂ reading freqOf 800 ht₂ hf₂
  constructor
  · rw [e₁, e₂]
    unfold fixedActions
    rw [hn]
    apply filterMap_ext
    intro i _
    rw [hc, hmn, hmx]
  · intro a ha
    rw [e₁] at ha
    obtain ⟨i, _, hsome⟩ := List.mem_filterMap.1 ha
    by_cases hi : (g₁.cores i).controller = i
    · rw [if_pos hi] at hsome
      obtain rfl := Option.some.inj hsome
      exact ⟨rfl, rfl⟩
    · rw [if_neg hi] at hsome
      cases hsome

/-- Fixed-mode configuration for the C4 witness: one self-controlling
core, target load 0 and target frequency 800 on every line state. -/
def c4State : GState where
  samples := 2
  sample := 0
  ncpu := 1
  cpTimes := fun _ _ => 0
  cores := fun _ => { controller := 0, load := 0, min := 100, max := 2000 }
  targets := fun _ => 0
  target_freqs := fun _ => 800
  target := 0
  target_freq := 800
  acline := 2

/-- Witness for C4: the same fixed-mode configuration fed two different
tick histories produces identical decisions with wanted 800. -/
theorem fixed_mode_load_independent_witness :
    (c4State.targets ((none : Option (Fin 3)).getD 2) = 0
      ∧ c4State.target_freqs ((none : Option (Fin 3)).getD 2) = 800)
    ∧ (update_freq c4State c1Kern none (fun _ => 600)).2
      = (update_freq c4State c2Kern none (fun _ => 600)).2
    ∧ ∀ a ∈ (update_freq c4State c1Kern none (fun _ => 600)).2,
        a.wantfreq = 800
        ∧ a.newfreq
          = newfreqOf 800 ((c4State.cores a.corei).min) ((c4State.cores a.corei).max) :=
  ⟨⟨by decide, by decide⟩,
   fixed_mode_load_independent c4State c4State c1Kern c2Kern none (fun _ => 600)
     rfl (fun _ => rfl) (fun _ => rfl) (fun _ => rfl)
     (by decide) (by decide) (by decide) (by decide)⟩

/-- C5 (spec-modelled for the rolling sum).  After any sequence of
sampling cycles the maintained rolling sum of the modelled load ring
equals the sum of the samples stored in the buffer (the O(1)
incremental update never drifts), the buffer keeps its size, the ring
index advances by one modulo the sample count per absorbed sample; and
in the source the shared sample index of update_cp_times advances
modulo the sample count every cycle. -/
theorem ring_rolling_sum_invariant (r : LoadRing) (xs : List Nat)
    (hsum : r.sum = r.buf.sum) (hidx : r.idx < r.buf.length) :
    ((xs.foldl ringUpdate r).sum = (xs.foldl ringUpdate r).buf.sum
      ∧ (xs.foldl ringUpdate r).buf.length = r.buf.length
      ∧ (xs.foldl ringUpdate r).idx = (r.idx + xs.length) % r.buf.length)
    ∧ ∀ (g : GState) (kern : Nat → Fin 5 → Nat),
        (update_cp_times g kern).sample = (g.sample + 1) % g.samples := by
  refine ⟨?_, fun g kern => rfl⟩
  induction xs generalizing r with
  | nil =>
    exact ⟨hsum, rfl, by simp [Nat.mod_eq_of_lt hidx]⟩
  | cons x rest ih =>
    have hlen0 : 0 < r.buf.length := lt_of_le_of_lt (Nat.zero_le _) hidx
    have hgett : r.buf.getD r.idx 0 ≤ r.buf.sum := by
      rw [List.getD_eq_getElem r.buf 0 hidx]
      exact List.single_le_sum (fun y _ => Nat.zero_le y) _ (List.getElem_mem hidx)
    have hstep_sum : (ringUpdate r x).sum = (ringUpdate r x).buf.sum := by
      show r.sum - r.buf.getD r.idx 0 + x = (r.buf.set r.idx x).sum
      rw [sum_set r.buf r.idx x hidx, hsum]
    have hstep_len : (ringUpdate r x).buf.length = r.buf.length :=
      List.length_set r.buf r.idx x
    have hstep_idx : (ringUpdate r x).idx = (r.idx + 1) % r.buf.length := rfl
    have hidx' : (ringUpdate r x).idx < (ringUpdate r x).buf.length := by
      rw [hstep_idx, hstep_len]
      exact Nat.mod_lt _ hlen0
    obtain ⟨ih1, ih2, ih3⟩ := ih (ringUpdate r x) hstep_sum hidx'
    refine ⟨ih1, ih2.trans hstep_len, ?_⟩
    rw [List.foldl_cons] at *
    rw [ih3, hstep_idx, hstep_len, Nat.mod_add_mod]
    simp only [List.length_cons]
    congr 1
    omega

/-- Witness for C5: a three-slot ring in a consistent state absorbing
two samples. -/
theorem ring_rolling_sum_invariant_witness :
    ((LoadRing.mk [1, 2, 3] 0 6).sum = (LoadRing.mk [1, 2, 3] 0 6).buf.sum
      ∧ (LoadRing.mk [1, 2, 3] 0 6).idx < (LoadRing.mk [1, 2, 3] 0 6).buf.length)
    ∧ ((([10, 20].foldl ringUpdate (LoadRing.mk [1, 2, 3] 0 6)).sum
        = ([10, 20].foldl ringUpdate (LoadRing.mk [1, 2, 3] 0 6)).buf.sum
      ∧ ([10, 20].foldl ringUpdate (LoadRing.mk [1, 2, 3] 0 6)).buf.length
        = (LoadRing.mk [1, 2, 3] 0 6).buf.length
      ∧ ([10, 20].foldl ringUpdate (LoadRing.mk [1, 2, 3] 0 6)).idx
        = ((LoadRing.mk [1, 2, 3] 0 6).idx + [10, 20].length)
          % (LoadRing.mk [1, 2, 3] 0 6).buf.length)
      ∧ ∀ (g : GState) (kern : Nat → Fin 5 → Nat),
          (update_cp_times g kern).sample = (g.sample + 1) % g.samples) :=
  ⟨⟨by decide, by decide⟩,
   ring_rolling_sum_invariant (LoadRing.mk [1, 2, 3] 0 6) [10, 20] (by decide) (by decide)⟩

/-- Fully successful lifecycle environment: pidfile opens, the
FreqGuard probe, daemonising and the pid write succeed, and the main
loop exits through a recorded signal. -/
def envAllOk : DaemonEnv where
  pidOpen := .ok
  fgCtorOk := true
  daemonOk := true
  pidWriteOk := true
  loopOk := true

/-- C7 counterexample.  In the concrete one-core run the pre-daemon
frequency read (and restored) by the FreqGuard constructor is 600 MHz,
but the shutdown write of the FreqGuard destructor is the group
maximum 2000 MHz: the value written on shutdown is not the pre-daemon
frequency claimed. -/
theorem shutdown_writes_max_not_predaemon_cex :
    fgCtorWrites lifecycleState (fun _ => 600) = [Ev.freqWrite 0 600]
    ∧ fgDtorWrites lifecycleState = [Ev.freqWrite 0 2000]
    ∧ (run_daemon lifecycleState envAllOk (fun _ => 600)).2
      = [Ev.freqWrite 0 600, Ev.freqWrite 0 2000, Ev.pidRemove]
    ∧ fgDtorWrites lifecycleState ≠ fgCtorWrites lifecycleState (fun _ => 600) := by
  refine ⟨by decide, by decide, by decide, by decide⟩

/-- C7 (amended).  On every exit path of run_daemon the pidfile lock is
released (the Pidfile destructor runs), and on every path on which the
FreqGuard was constructed — including the error paths and the signal
driven shutdown — a best-effort write of the MAXIMUM frequency of each
group (core.max, not the pre-daemon frequency) is issued to every
clock controlling core. -/
theorem run_daemon_unlocks_and_writes_max (g : GState) (env : DaemonEnv)
    (freqOf : Nat → Nat) :
    Ev.pidRemove ∈ (run_daemon g env freqOf).2
    ∧ (env.pidOpen = .ok → env.fgCtorOk = true →
        ∀ i, i < g.ncpu → (g.cores i).controller = i →
          Ev.freqWrite i ((g.cores i).max) ∈ (run_daemon g env freqOf).2) := by
  constructor
  · unfold run_daemon
    cases env.pidOpen with
    | eexist p => exact List.mem_singleton.2 rfl
    | err e => exact List.mem_singleton.2 rfl
    | ok =>
      cases env.fgCtorOk with
      | false => simp
      | true =>
        cases env.daemonOk <;> cases env.pidWriteOk <;> cases env.loopOk <;>
          simp [List.mem_append]
  · intro hok hfg i hi hctl
    have htrace : (run_daemon g env freqOf).2
        = fgCtorWrites g freqOf ++ fgDtorWrites g ++ [Ev.pidRemove] := by
      unfold run_daemon
      rw [hok, hfg]
      cases env.daemonOk <;> cases env.pidWriteOk <;> cases env.loopOk <;> simp
    rw [htrace]
    have hmem : Ev.freqWrite i ((g.cores i).max) ∈ fgDtorWrites g :=
      List.mem_filterMap.2 ⟨i, List.mem_range.2 hi, by rw [if_pos hctl]⟩
    simp [List.mem_append, hmem]

/-- Witness for the amended C7 on the concrete one-core run. -/
theorem run_daemon_unlocks_and_writes_max_witness :
    (envAllOk.pidOpen = .ok ∧ envAllOk.fgCtorOk = true
      ∧ 0 < lifecycleState.ncpu ∧ (lifecycleState.cores 0).controller = 0)
    ∧ Ev.pidRemove ∈ (run_daemon lifecycleState envAllOk (fun _ => 600)).2
    ∧ Ev.freqWrite 0 ((lifecycleState.cores 0).max)
      ∈ (run_daemon lifecycleState envAllOk (fun _ => 600)).2 :=
  ⟨⟨rfl, rfl, by decide, by decide⟩,
   (run_daemon_unlocks_and_writes_max lifecycleState envAllOk (fun _ => 600)).1,
   (run_daemon_unlocks_and_writes_max lifecycleState envAllOk (fun _ => 600)).2
     rfl rfl 0 (by decide) (by decide)⟩

end Powerdxx
